import Mathlib

/-!
Shallow embedding of the tubular YouTube live-stream monitor
(`src/monitor.py`, `src/api_client.py`, `src/webhook.py`,
`src/server/server.py`, and the near-identical copies under
`tubular/contrib/tubular/`), together with theorems settling the frozen
claims about it.

Conventions of the embedding:
  * Python dicts become association lists over `String` keys with
    Python-dict semantics (update in place preserves position, fresh keys
    are appended, iteration follows insertion order).
  * Times are natural-number seconds; UTC calendar dates are natural-number
    day indices.
  * Network responses are oracle functions passed to the step functions;
    `None` / `{}` results become `Option.none`.
  * A `KeyError` raised inside `_check_live_streams` (which the polling
    loop catches one level up) is modelled by a `crashed` flag: once set,
    the rest of the cycle is skipped, and state mutated up to that point
    is kept - exactly the effect of the exception escaping the method.
-/

namespace Tubular

/-! ### Association lists with Python-dict semantics -/

/-- Python `d[key]` lookup returning the first binding (dicts have unique keys). -/
def lookupKey {α : Type} : List (String × α) → String → Option α
  | [], _ => none
  | (k, v) :: rest, key => if k = key then some v else lookupKey rest key

/-- Python `d[key] = val`: replace the binding in place if present, append otherwise. -/
def insertKey {α : Type} : List (String × α) → String → α → List (String × α)
  | [], key, val => [(key, val)]
  | (k, v) :: rest, key, val =>
      if k = key then (k, val) :: rest else (k, v) :: insertKey rest key val

/-- Python `del d[key]` (tolerating an absent key, as the code guards deletions). -/
def eraseKey {α : Type} : List (String × α) → String → List (String × α)
  | [], _ => []
  | (k, v) :: rest, key => if k = key then rest else (k, v) :: eraseKey rest key

/-- Python `list(d.keys())`. -/
def keysOf {α : Type} (l : List (String × α)) : List String := l.map Prod.fst

/-- Python `abs(a - b)` on the integer viewer counts. -/
def absDiff (a b : Nat) : Nat := if b ≤ a then a - b else b - a

/-! ### Data model of `YouTubeLiveMonitor` -/

/-- The `liveStreamingDetails` sub-dictionary of a video resource.
`viewers` is the `concurrentViewers` value, `0` standing for an absent key
exactly as the code's `.get("concurrentViewers", 0)` reads it; `chatId` is
the optional `activeLiveChatId` key. -/
structure LiveInfo where
  viewers : Nat
  chatId : Option String
deriving DecidableEq

/-- The chained read `details.get("liveStreamingDetails", {}).get("concurrentViewers", 0)`:
the viewer count of an optional live-details record, `0` when absent. -/
def getViewers : Option LiveInfo → Nat
  | some li => li.viewers
  | none => 0

/-- A video resource returned by `get_video_details` (`snippet` fields plus
the optional `liveStreamingDetails` key, which the API omits for videos
that are not live broadcasts). -/
structure VideoDetails where
  title : String
  channelId : String
  live : Option LiveInfo
deriving DecidableEq

/-- One page returned by `get_live_chat_messages`: the optional
`nextPageToken` and the `snippet.type` tag of each item.  `Option.none`
for the whole page models the falsy `{}` returned on failure. -/
structure ChatPage where
  nextPageToken : Option String
  items : List String
deriving DecidableEq

/-- A webhook event handed to `forwarder.forward_event`, projected to the
fields the claims mention (the event type tag and the identifying payload
fields). -/
inductive Event where
  | started (videoId : String) (viewers : Nat)
  | viewersUpdated (videoId : String) (viewers : Nat)
  | ended (videoId : String)
  | chatMessage (videoId : String)
  | superChat (videoId : String)
  | newSponsor (videoId : String)
deriving DecidableEq

/-- The `video_id` field carried by every event payload. -/
def Event.videoId : Event → String
  | .started v _ => v
  | .viewersUpdated v _ => v
  | .ended v => v
  | .chatMessage v => v
  | .superChat v => v
  | .newSponsor v => v

/-- Holds exactly for `youtube.live.ended` events. -/
def Event.isEnded : Event → Bool
  | .ended _ => true
  | _ => false

/-- The monitor's mutable per-stream state: `self.active_streams` and
`self.chat_page_tokens`. -/
structure MonitorState where
  activeStreams : List (String × VideoDetails)
  chatPageTokens : List (String × String)
deriving DecidableEq

/-- Result of one `_check_live_streams` cycle: the events forwarded in
order, the state afterwards, and whether a `KeyError` escaped the method
(the polling loop catches it; state mutated before the raise is kept). -/
structure RunResult where
  events : List Event
  st : MonitorState
  crashed : Bool
deriving DecidableEq

/-! ### Chat monitoring (`_monitor_chat`) -/

/-- The type-keyed dispatch over `snippet["type"]`: recognized tags map to
their event, every other tag is silently dropped. -/
def chatEventOf (videoId : String) (msgType : String) : Option Event :=
  if msgType = "textMessageEvent" then some (.chatMessage videoId)
  else if msgType = "superChatEvent" then some (.superChat videoId)
  else if msgType = "newSponsorEvent" then some (.newSponsor videoId)
  else none

/-- Method `_monitor_chat`: fetch one chat page with the stored cursor, store the
returned `nextPageToken` (empty string when absent), and emit one event per
recognized message in arrival order.  A falsy response leaves everything
unchanged. -/
def monitorChat (chat : String → Option String → Option ChatPage)
    (videoId liveChatId : String) (st : MonitorState) :
    List Event × MonitorState :=
  let pageToken := lookupKey st.chatPageTokens videoId
  match chat liveChatId pageToken with
  | none => ([], st)
  | some page =>
      let st' := { st with
        chatPageTokens :=
          insertKey st.chatPageTokens videoId (page.nextPageToken.getD "") }
      (page.items.filterMap (chatEventOf videoId), st')

/-! ### Full broadcast check (`_check_live_streams`, full path) -/

/-- Processing of one search result inside the full-check loop
(`monitor.py` lines 338-417).  The identifier was already added to
`current_stream_ids` by the caller.  `crashed` records the `KeyError`
raised by the unguarded `details["liveStreamingDetails"]` index (line 360
for a new stream - after the `active_streams` store on line 352 - and
line 414 for a tracked one - after the store on line 411 and after the
viewer-diff events). -/
def processOne (details : String → Option VideoDetails)
    (chat : String → Option String → Option ChatPage)
    (videoId : String) (st : MonitorState) : RunResult :=
  match details videoId with
  | none => ⟨[], st, false⟩
  | some d =>
      match lookupKey st.activeStreams videoId with
      | none =>
          let st1 : MonitorState :=
            { st with activeStreams := insertKey st.activeStreams videoId d }
          match d.live with
          | none => ⟨[], st1, true⟩
          | some li =>
              match li.chatId with
              | some cid =>
                  let r := monitorChat chat videoId cid st1
                  ⟨.started videoId li.viewers :: r.1, r.2, false⟩
              | none => ⟨[.started videoId li.viewers], st1, false⟩
      | some old =>
          let oldViewers := getViewers old.live
          let newViewers := getViewers d.live
          let updEvents :=
            if oldViewers ≠ 0 ∧ newViewers ≠ 0 ∧
                (100 < absDiff newViewers oldViewers ∨
                  oldViewers < 10 * absDiff newViewers oldViewers)
            then [Event.viewersUpdated videoId newViewers] else []
          let st1 : MonitorState :=
            { st with activeStreams := insertKey st.activeStreams videoId d }
          match d.live with
          | none => ⟨updEvents, st1, true⟩
          | some li =>
              match li.chatId with
              | some cid =>
                  let r := monitorChat chat videoId cid st1
                  ⟨updEvents ++ r.1, r.2, false⟩
              | none => ⟨updEvents, st1, false⟩

/-- The `for broadcast in broadcasts` loop; a raised `KeyError` aborts the
remaining iterations (and, in `fullCheck`, the ended-stream sweep). -/
def processBroadcasts (details : String → Option VideoDetails)
    (chat : String → Option String → Option ChatPage) :
    List String → MonitorState → RunResult
  | [], st => ⟨[], st, false⟩
  | videoId :: rest, st =>
      let r1 := processOne details chat videoId st
      if r1.crashed then r1
      else
        let r2 := processBroadcasts details chat rest r1.st
        ⟨r1.events ++ r2.events, r2.st, r2.crashed⟩

/-- The ended-streams loop (`monitor.py` lines 421-438): for each ended
identifier delete its active-set entry and its chat cursor. -/
def endedSweep : List String → MonitorState → MonitorState
  | [], st => st
  | videoId :: rest, st =>
      endedSweep rest
        ⟨eraseKey st.activeStreams videoId, eraseKey st.chatPageTokens videoId⟩

/-- The full-check path of `_check_live_streams` (lines 330-438):
`current_stream_ids` collects every listed identifier (before its details
fetch), each result is processed, and - unless a `KeyError` escaped - every
tracked identifier missing from the list gets one `ended` event and is
evicted together with its chat cursor. -/
def fullCheck (details : String → Option VideoDetails)
    (chat : String → Option String → Option ChatPage)
    (broadcasts : List String) (st : MonitorState) : RunResult :=
  let r := processBroadcasts details chat broadcasts st
  if r.crashed then r
  else
    let endedIds :=
      (keysOf r.st.activeStreams).filter (fun k => decide (k ∉ broadcasts))
    ⟨r.events ++ endedIds.map Event.ended, endedSweep endedIds r.st, false⟩

/-! ### Lightweight refresh (`_check_live_streams`, lines 288-328) -/

/-- The body of the `for video_id in list(self.active_streams.keys())`
loop of the lightweight path.  For a tracked identifier: a `None` details response,
or one without `liveStreamingDetails`, is only logged ("appears to have
ended") - no event, no state change.  Otherwise the stored snapshot is
replaced and a `viewers_updated` event fires exactly when the old count is
positive and the relative change exceeds 10% (`10 * |new - old| > old`
renders the code's `abs(new - old) / old > 0.1` exactly for all realistic
counts; the two sides can only differ beyond 8 * 10^15 viewers).  The
unguarded `old_details["liveStreamingDetails"]` index (line 299) raises
`KeyError` when the stored snapshot lacks the key, modelled by `crashed`. -/
def lightweightStep (details : String → Option VideoDetails)
    (videoId : String) (st : MonitorState) : RunResult :=
  match details videoId with
  | none => ⟨[], st, false⟩
  | some d =>
      match d.live with
      | none => ⟨[], st, false⟩
      | some li =>
          match lookupKey st.activeStreams videoId with
          | none => ⟨[], st, true⟩
          | some old =>
              match old.live with
              | none => ⟨[], st, true⟩
              | some oldLi =>
                  let st1 : MonitorState := { st with
                    activeStreams := insertKey st.activeStreams videoId d }
                  let evs :=
                    if 0 < oldLi.viewers ∧
                        oldLi.viewers < 10 * absDiff li.viewers oldLi.viewers
                    then [Event.viewersUpdated videoId li.viewers] else []
                  ⟨evs, st1, false⟩

/-- The iteration of the loop above over the key snapshot; a raised
`KeyError` aborts the remaining iterations. -/
def lightweightGo (details : String → Option VideoDetails) :
    List String → MonitorState → RunResult
  | [], st => ⟨[], st, false⟩
  | videoId :: rest, st =>
      let step := lightweightStep details videoId st
      if step.crashed then step
      else
        let r2 := lightweightGo details rest step.st
        ⟨step.events ++ r2.events, r2.st, r2.crashed⟩

/-- The lightweight-refresh path taken when streams are active and the last
full check is less than 5 minutes old. -/
def lightweightRefresh (details : String → Option VideoDetails)
    (st : MonitorState) : RunResult :=
  lightweightGo details (keysOf st.activeStreams) st

/-! ### Quota tracking (`YouTubeAPIClient`, `api_client.py`) -/

/-- The quota-relevant fields of `YouTubeAPIClient`: the sticky
`quota_exceeded` flag, the cumulative `quota_used_today`, and the
`quota_reset_date` (a UTC day index). -/
structure QuotaState where
  quotaExceeded : Bool
  quotaUsedToday : Nat
  quotaResetDate : Nat
deriving DecidableEq

/-- The lookup `self.quota_costs.get(operation, 1)` with the table
`{"search": 100, "videos": 1, "liveChatMessages": 5}`. -/
def quotaCosts (operation : String) : Nat :=
  if operation = "search" then 100
  else if operation = "videos" then 1
  else if operation = "liveChatMessages" then 5
  else 1

/-- Method `_record_api_call` (lines 98-116): on a date change zero the counter
and move the reset date, then charge the operation's cost unconditionally.
(The rate-limiter timestamp append and the Redis save are effect-free on
these fields and are not modelled.) -/
def recordApiCall (operation : String) (today : Nat) (q : QuotaState) :
    QuotaState :=
  let q1 := if today ≠ q.quotaResetDate
    then { q with quotaUsedToday := 0, quotaResetDate := today } else q
  { q1 with quotaUsedToday := q1.quotaUsedToday + quotaCosts operation }

/-- What came back from the upstream `search.list` call: a transport-level
failure (`requests.RequestException`), a body whose `error` field reports
quota exhaustion (403 with reason `quotaExceeded`/`dailyLimitExceeded`),
any other error body, or a parsed item list. -/
inductive ApiResponse where
  | transportError
  | quotaError
  | apiError
  | ok (ids : List String)
deriving DecidableEq

/-- Method `get_live_broadcasts` (lines 184-208), restricted to the quota logic
and the returned identifiers.  If the flag is already set the call is
refused with `[]` and nothing is charged.  A transport failure skips
`_record_api_call` (the exception is raised by `session.get`, before the
recording) and yields `[]`.  Otherwise the call is charged as `"search"`
and the body is parsed by `_handle_api_response`, which sets the sticky
flag on a quota error and maps every error to `None`, hence `[]`. -/
def getLiveBroadcasts (today : Nat) (resp : ApiResponse) (q : QuotaState) :
    List String × QuotaState :=
  if q.quotaExceeded then ([], q)
  else
    match resp with
    | .transportError => ([], q)
    | .quotaError =>
        let q1 := recordApiCall "search" today q
        ([], { q1 with quotaExceeded := true })
    | .apiError => ([], recordApiCall "search" today q)
    | .ok ids => (ids, recordApiCall "search" today q)

/-! ### Webhook forwarder (`webhook.py`) -/

/-- One element of `self.failed_events`: the
`(event_type, event_data, timestamp)` triple, with the payload kept as an
opaque serialized string and the enqueue time in seconds. -/
structure Entry where
  eventType : String
  payload : String
  timestamp : Nat
deriving DecidableEq

/-- Python `deque(maxlen=100).append`: append on the right, silently dropping
from the left when the ring is over capacity. -/
def ringPush (ring : List Entry) (e : Entry) : List Entry :=
  let r := ring ++ [e]
  if 100 < r.length then r.drop (r.length - 100) else r

/-- Method `forward_event` from a given `retry_count` (lines 25-71), with the
HTTP outcome of attempt `k` supplied by the oracle `outcomes k`.  A
successful attempt returns `True` and leaves the ring alone; a failed
attempt with `retry_count < 3` sleeps and recurses; the fourth failure
appends one `(event_type, event_data, now)` entry and returns `False`. -/
def forwardEventFrom (outcomes : Nat → Bool) (eventType payload : String)
    (now : Nat) (ring : List Entry) (retryCount : Nat) : Bool × List Entry :=
  if outcomes retryCount then (true, ring)
  else if retryCount < 3 then
    forwardEventFrom outcomes eventType payload now ring (retryCount + 1)
  else (false, ringPush ring ⟨eventType, payload, now⟩)
termination_by 3 - retryCount
decreasing_by omega

/-- A `forward_event` call as made by the monitor (`retry_count = 0`). -/
def forwardEvent (outcomes : Nat → Bool) (eventType payload : String)
    (now : Nat) (ring : List Entry) : Bool × List Entry :=
  forwardEventFrom outcomes eventType payload now ring 0

/-- Observable outcome of one `retry_failed_events` sweep: the entries
given a delivery attempt, every entry appended to the ring during the
sweep (a ghost trace of the `append` calls, before any capacity drop), and
the final ring. -/
structure SweepResult where
  attempted : List Entry
  pushed : List Entry
  ring : List Entry
deriving DecidableEq

/-- The loop body of `retry_failed_events` (lines 82-88) over the drained
copy, with the ring accumulator starting from the cleared deque.  An entry
older than one hour is skipped.  Otherwise `forward_event` runs with the
entry's own outcome oracle; by `forwardEvent` it returns `False` exactly
when it appended a fresh `(type, data, now)` entry, and in that case the
loop re-appends the original `(type, data, timestamp)` triple. -/
def retrySweepGo (outcomes : Entry → Nat → Bool) (now : Nat) :
    List Entry → List Entry → SweepResult
  | [], ring => ⟨[], [], ring⟩
  | e :: rest, ring =>
      if 3600 < now - e.timestamp then retrySweepGo outcomes now rest ring
      else
        let fwd := forwardEvent (outcomes e) e.eventType e.payload now ring
        let ring2 := if fwd.1 then fwd.2
          else ringPush fwd.2 ⟨e.eventType, e.payload, e.timestamp⟩
        let pushedHere : List Entry := if fwd.1 then []
          else [⟨e.eventType, e.payload, now⟩, ⟨e.eventType, e.payload, e.timestamp⟩]
        let r := retrySweepGo outcomes now rest ring2
        ⟨e :: r.attempted, pushedHere ++ r.pushed, r.ring⟩

/-- Method `retry_failed_events` (lines 73-88): no-op on an empty ring, otherwise
drain the deque into a copy, clear it, and run the loop above. -/
def retryFailedEvents (outcomes : Entry → Nat → Bool) (now : Nat)
    (ring : List Entry) : SweepResult :=
  if ring = [] then ⟨[], [], ring⟩
  else retrySweepGo outcomes now ring []

/-! ### JSON serialization and the signed envelope (`webhook.py` 25-44, 90-96) -/

/-- JSON values as `json.dumps` receives them (no floats occur in the
envelope, so `allow_nan` never matters). -/
inductive JValue where
  | null
  | bool (b : Bool)
  | num (n : Int)
  | str (s : String)
  | arr (elems : List JValue)
  | obj (fields : List (String × JValue))

/-- The `json.dumps` escaping of one character inside a string literal.
(Non-ASCII `ensure_ascii` escapes are elided: both uses of the serializer
in `forward_event` apply the identical function, which is what the claims
depend on.) -/
def jsonEscapeChar (c : Char) : String :=
  if c = '"' then "\\\""
  else if c = '\\' then "\\\\"
  else if c = '\n' then "\\n"
  else if c = '\r' then "\\r"
  else if c = '\t' then "\\t"
  else String.singleton c

/-- Escape a whole string body. -/
def jsonEscape (s : String) : String :=
  String.join (s.toList.map jsonEscapeChar)

/-- Comma-separated rendering with `json.dumps`'s default `", "` item
separator. -/
def joinSep (sep : String) : List String → String
  | [] => ""
  | [x] => x
  | x :: rest => x ++ sep ++ joinSep sep rest

mutual

/-- The serializer `json.dumps` with its default separators `(", ", ": ")` and default
key order (insertion order). -/
def jdump : JValue → String
  | .null => "null"
  | .bool true => "true"
  | .bool false => "false"
  | .num n => toString n
  | .str s => "\"" ++ jsonEscape s ++ "\""
  | .arr elems => "[" ++ joinSep ", " (jdumpList elems) ++ "]"
  | .obj fields => "\x7b" ++ joinSep ", " (jdumpFields fields) ++ "\x7d"

/-- Render each array element. -/
def jdumpList : List JValue → List String
  | [] => []
  | x :: rest => jdump x :: jdumpList rest

/-- Render each `"key": value` pair. -/
def jdumpFields : List (String × JValue) → List String
  | [] => []
  | (k, v) :: rest => ("\"" ++ jsonEscape k ++ "\": " ++ jdump v) :: jdumpFields rest

end

/-- One lowercase hexadecimal digit. -/
def hexDigit (n : Nat) : Char :=
  if n < 10 then Char.ofNat (48 + n) else Char.ofNat (87 + n)

/-- Python `.hexdigest()`: the lowercase two-digit hex rendering of each digest
byte in order. -/
def hexDigest (bytes : List Nat) : String :=
  String.join (bytes.map fun b =>
    String.singleton (hexDigit (b % 256 / 16)) ++ String.singleton (hexDigit (b % 16)))

/-- Method `_generate_signature` (lines 90-96):
`hmac.new(secret.encode(), payload.encode(), hashlib.sha256).hexdigest()`,
with the HMAC-SHA256 primitive itself supplied as an oracle from key and
message to the 32 digest bytes. -/
def generateSignature (hmacSha256 : String → String → List Nat)
    (secret payload : String) : String :=
  hexDigest (hmacSha256 secret payload)

/-- The envelope dict built at the top of `forward_event`, in its exact
insertion order. -/
def envelopeJson (eventType : String) (eventData : JValue)
    (timestamp : String) : JValue :=
  .obj [("event_type", .str eventType), ("event", eventData),
        ("timestamp", .str timestamp), ("source", .str "youtube")]

/-- The HTTP request `forward_event` prepares. -/
structure PreparedRequest where
  body : String
  headers : List (String × String)
deriving DecidableEq

/-- Request construction in `forward_event` (lines 29-50): the envelope is
built once; when a secret is configured the signature over
`json.dumps(payload)` is attached as `X-Hub-Signature: sha256=<hex>`; the
body posted by `session.post(..., json=payload)` is the same
`json.dumps` serialization of the same envelope (`requests` serializes
`json=` with `json.dumps`, whose `allow_nan` flag cannot fire here). -/
def buildWebhookRequest (hmacSha256 : String → String → List Nat)
    (webhookSecret : Option String) (eventType : String) (eventData : JValue)
    (timestamp : String) : PreparedRequest :=
  let payload := envelopeJson eventType eventData timestamp
  let baseHeaders : List (String × String) :=
    [("Content-Type", "application/json"),
     ("User-Agent", "Tubular-YouTube-Webhook-Forwarder/1.0")]
  let headers := match webhookSecret with
    | some s =>
        baseHeaders ++
          [("X-Hub-Signature",
            "sha256=" ++ generateSignature hmacSha256 s (jdump payload))]
    | none => baseHeaders
  ⟨jdump payload, headers⟩

/-! ### Callback HTTP handlers (`server/server.py` and the contrib copy) -/

/-- Status line and body of a handler response. -/
structure HttpResponse where
  status : Nat
  body : String
deriving DecidableEq

/-- The event-type tags advertised by `/data/events`
(`constants.SUPPORTED_EVENT_TYPES` as used by `ExampleEventsTrigger`). -/
def supportedEventTypes : List String :=
  ["youtube.live.started", "youtube.live.update", "youtube.live.viewers_updated",
   "youtube.live.ended", "youtube.chat.message", "youtube.chat.superchat",
   "youtube.chat.new_sponsor", "youtube.chat.supersticker",
   "youtube.chat.user_banned", "youtube.chat.message_deleted",
   "youtube.chat.poll"]

/-- Handler `CallbackHandler.do_GET` in `src/server/server.py` (lines 76-111):
`self.path` is compared verbatim against `/data/events`; otherwise the
parsed query is searched for the `hub_challenge` key (note: underscore),
echoed with status 200 when present; every other request gets a 404 with a
`Not Found:` body. -/
def doGET_src (rawPath : String) (params : List (String × String)) :
    HttpResponse :=
  if rawPath = "/data/events" then
    ⟨200, jdump (.obj [("available_events",
        .arr (supportedEventTypes.map JValue.str))])⟩
  else
    match lookupKey params "hub_challenge" with
    | some challenge => ⟨200, challenge⟩
    | none => ⟨404, "Not Found: " ++ rawPath⟩

/-- Handler `CallbackHandler.do_GET` in `tubular/contrib/tubular/tubular.py`
(lines 550-567): searches the query for the protocol's real
`hub.challenge` key, echoes it with 200, and answers 200 with an empty
body otherwise. -/
def doGET_contrib (params : List (String × String)) : HttpResponse :=
  match lookupKey params "hub.challenge" with
  | some challenge => ⟨200, challenge⟩
  | none => ⟨200, ""⟩

/-! ### Concrete fixtures used by counterexamples and witnesses -/

/-- A live video-details resource with the given viewer count and no chat. -/
def sampleLive (n : Nat) : VideoDetails := ⟨"Title", "Chan", some ⟨n, none⟩⟩

/-- A details resource without the `liveStreamingDetails` key. -/
def sampleNoLive : VideoDetails := ⟨"Title", "Chan", none⟩

/-- A details oracle answering `None` for every identifier. -/
def detailsNone : String → Option VideoDetails := fun _ => none

/-- A chat oracle answering the falsy `{}` for every request. -/
def chatNone : String → Option String → Option ChatPage := fun _ _ => none

/-! ### Dictionary lemmas -/

theorem lookupKey_insertKey {α : Type} (l : List (String × α)) (k k' : String)
    (v : α) :
    lookupKey (insertKey l k v) k' = if k = k' then some v else lookupKey l k' := by
  induction l with
  | nil => simp [insertKey, lookupKey]
  | cons a rest ih =>
      obtain ⟨ka, va⟩ := a
      by_cases hak : ka = k
      · subst hak
        by_cases h' : ka = k' <;> simp [insertKey, lookupKey, h']
      · by_cases h' : ka = k'
        · subst h'
          have hk : ¬k = ka := fun h => hak h.symm
          simp [insertKey, lookupKey, hak, hk]
        · simp [insertKey, lookupKey, hak, h', ih]

theorem lookupKey_eraseKey_ne {α : Type} (l : List (String × α)) (k k' : String)
    (h : k ≠ k') :
    lookupKey (eraseKey l k) k' = lookupKey l k' := by
  induction l with
  | nil => rfl
  | cons a rest ih =>
      obtain ⟨ka, va⟩ := a
      by_cases hak : ka = k
      · subst hak
        simp [eraseKey, lookupKey, h]
      · by_cases h' : ka = k'
        · subst h'
          simp [eraseKey, lookupKey, hak]
        · simp [eraseKey, lookupKey, hak, h', ih]

theorem lookupKey_eq_none {α : Type} (l : List (String × α)) (k : String)
    (h : k ∉ keysOf l) : lookupKey l k = none := by
  induction l with
  | nil => rfl
  | cons a rest ih =>
      obtain ⟨ka, va⟩ := a
      simp only [keysOf, List.map_cons, List.mem_cons] at h
      push_neg at h
      have : ka ≠ k := fun hk => h.1 hk.symm
      simp [lookupKey, this, ih (by simpa [keysOf] using h.2)]

theorem lookupKey_isSome {α : Type} (l : List (String × α)) (k : String) :
    (lookupKey l k).isSome = true ↔ k ∈ keysOf l := by
  induction l with
  | nil => simp [lookupKey, keysOf]
  | cons a rest ih =>
      obtain ⟨ka, va⟩ := a
      by_cases hak : ka = k
      · subst hak; simp [lookupKey, keysOf]
      · have hne : ¬k = ka := fun h => hak h.symm
        simp [lookupKey, keysOf, hak, hne, ih]

theorem lookupKey_eraseKey_self {α : Type} (l : List (String × α)) (k : String)
    (h : (keysOf l).Nodup) :
    lookupKey (eraseKey l k) k = none := by
  induction l with
  | nil => rfl
  | cons a rest ih =>
      obtain ⟨ka, va⟩ := a
      simp only [keysOf, List.map_cons, List.nodup_cons] at h
      by_cases hak : ka = k
      · subst hak
        simpa [eraseKey] using lookupKey_eq_none rest ka h.1
      · simp [eraseKey, lookupKey, hak, ih h.2]

theorem keysOf_insertKey_mem {α : Type} (l : List (String × α)) (k : String)
    (v : α) (h : k ∈ keysOf l) :
    keysOf (insertKey l k v) = keysOf l := by
  induction l with
  | nil => simp [keysOf] at h
  | cons a rest ih =>
      obtain ⟨ka, va⟩ := a
      by_cases hak : ka = k
      · simp [insertKey, hak, keysOf]
      · have hmem : k ∈ keysOf rest := by
          simp only [keysOf, List.map_cons, List.mem_cons] at h
          rcases h with h | h
          · exact absurd h.symm hak
          · exact h
        have h2 := ih hmem
        simp only [keysOf] at h2
        simp [insertKey, hak, keysOf, h2]

theorem keysOf_insertKey_notMem {α : Type} (l : List (String × α)) (k : String)
    (v : α) (h : k ∉ keysOf l) :
    keysOf (insertKey l k v) = keysOf l ++ [k] := by
  induction l with
  | nil => simp [insertKey, keysOf]
  | cons a rest ih =>
      obtain ⟨ka, va⟩ := a
      simp only [keysOf, List.map_cons, List.mem_cons] at h
      push_neg at h
      have hak : ka ≠ k := fun hk => h.1 hk.symm
      have h2 := ih (by simpa [keysOf] using h.2)
      simp only [keysOf] at h2
      simp [insertKey, hak, keysOf, h2]

theorem nodupKeys_insertKey {α : Type} (l : List (String × α)) (k : String)
    (v : α) (h : (keysOf l).Nodup) :
    (keysOf (insertKey l k v)).Nodup := by
  by_cases hm : k ∈ keysOf l
  · rw [keysOf_insertKey_mem l k v hm]; exact h
  · rw [keysOf_insertKey_notMem l k v hm]
    simp [List.nodup_append, h, hm]

theorem keysOf_eraseKey_sublist {α : Type} (l : List (String × α)) (k : String) :
    List.Sublist (keysOf (eraseKey l k)) (keysOf l) := by
  induction l with
  | nil => simp [eraseKey, keysOf]
  | cons a rest ih =>
      obtain ⟨ka, va⟩ := a
      by_cases hak : ka = k
      · simp [eraseKey, hak, keysOf]
      · simpa [eraseKey, hak, keysOf] using ih.cons₂ ka

theorem nodupKeys_eraseKey {α : Type} (l : List (String × α)) (k : String)
    (h : (keysOf l).Nodup) :
    (keysOf (eraseKey l k)).Nodup :=
  h.sublist (keysOf_eraseKey_sublist l k)

theorem lookupKey_none_iff {α : Type} (l : List (String × α)) (k : String) :
    lookupKey l k = none ↔ k ∉ keysOf l := by
  constructor
  · intro h hm
    have := (lookupKey_isSome l k).mpr hm
    rw [h] at this
    simp at this
  · exact lookupKey_eq_none l k

/-! ### Facts about `_monitor_chat` -/

theorem monitorChat_activeStreams (chat : String → Option String → Option ChatPage)
    (v cid : String) (st : MonitorState) :
    (monitorChat chat v cid st).2.activeStreams = st.activeStreams := by
  cases hc : chat cid (lookupKey st.chatPageTokens v) <;> simp [monitorChat, hc]

theorem monitorChat_tokens_ne (chat : String → Option String → Option ChatPage)
    (v cid : String) (st : MonitorState) (k : String) (h : k ≠ v) :
    lookupKey (monitorChat chat v cid st).2.chatPageTokens k
      = lookupKey st.chatPageTokens k := by
  cases hc : chat cid (lookupKey st.chatPageTokens v) with
  | none => simp [monitorChat, hc]
  | some page =>
      simp only [monitorChat, hc]
      rw [lookupKey_insertKey]
      exact if_neg (Ne.symm h)

theorem monitorChat_tokens_nodup (chat : String → Option String → Option ChatPage)
    (v cid : String) (st : MonitorState)
    (h : (keysOf st.chatPageTokens).Nodup) :
    (keysOf (monitorChat chat v cid st).2.chatPageTokens).Nodup := by
  cases hc : chat cid (lookupKey st.chatPageTokens v) with
  | none => simpa [monitorChat, hc] using h
  | some page =>
      simp only [monitorChat, hc]
      exact nodupKeys_insertKey _ _ _ h

theorem chatEventOf_spec (v msgType : String) (e : Event)
    (h : chatEventOf v msgType = some e) :
    Event.videoId e = v ∧ Event.isEnded e = false := by
  unfold chatEventOf at h
  by_cases h1 : msgType = "textMessageEvent"
  · simp [h1] at h; simp [← h, Event.videoId, Event.isEnded]
  · by_cases h2 : msgType = "superChatEvent"
    · simp [h1, h2] at h; simp [← h, Event.videoId, Event.isEnded]
    · by_cases h3 : msgType = "newSponsorEvent"
      · simp [h1, h2, h3] at h; simp [← h, Event.videoId, Event.isEnded]
      · simp [h1, h2, h3] at h

theorem monitorChat_events (chat : String → Option String → Option ChatPage)
    (v cid : String) (st : MonitorState) :
    ∀ e ∈ (monitorChat chat v cid st).1,
      Event.videoId e = v ∧ Event.isEnded e = false := by
  intro e he
  cases hc : chat cid (lookupKey st.chatPageTokens v) with
  | none => simp [monitorChat, hc] at he
  | some page =>
      simp only [monitorChat, hc, List.mem_filterMap] at he
      obtain ⟨t, _, ht⟩ := he
      exact chatEventOf_spec v t e ht

/-! ### Facts about the full-check loop body -/

theorem processOne_events (details : String → Option VideoDetails)
    (chat : String → Option String → Option ChatPage)
    (w : String) (st : MonitorState) :
    ∀ e ∈ (processOne details chat w st).events,
      Event.videoId e = w ∧ Event.isEnded e = false := by
  intro e he
  rcases hd : details w with _ | d
  · simp [processOne, hd] at he
  · rcases hl : lookupKey st.activeStreams w with _ | old
    · rcases hlive : d.live with _ | li
      · simp [processOne, hd, hl, hlive] at he
      · rcases hcid : li.chatId with _ | cid
        · simp only [processOne, hd, hl, hlive, hcid] at he
          simp only [List.mem_singleton] at he
          simp [he, Event.videoId, Event.isEnded]
        · simp only [processOne, hd, hl, hlive, hcid] at he
          rcases List.mem_cons.mp he with he | he
          · simp [he, Event.videoId, Event.isEnded]
          · exact monitorChat_events chat w cid _ e he
    · rcases hlive : d.live with _ | li
      · simp only [processOne, hd, hl, hlive] at he
        split at he
        · simp only [List.mem_singleton] at he
          simp [he, Event.videoId, Event.isEnded]
        · simp at he
      · rcases hcid : li.chatId with _ | cid
        · simp only [processOne, hd, hl, hlive, hcid] at he
          split at he
          · simp only [List.mem_singleton] at he
            simp [he, Event.videoId, Event.isEnded]
          · simp at he
        · simp only [processOne, hd, hl, hlive, hcid] at he
          rcases List.mem_append.mp he with he | he
          · split at he
            · simp only [List.mem_singleton] at he
              simp [he, Event.videoId, Event.isEnded]
            · simp at he
          · exact monitorChat_events chat w cid _ e he

theorem processOne_lookup_ne (details : String → Option VideoDetails)
    (chat : String → Option String → Option ChatPage)
    (w : String) (st : MonitorState) (k : String) (hk : k ≠ w) :
    lookupKey (processOne details chat w st).st.activeStreams k
      = lookupKey st.activeStreams k ∧
    lookupKey (processOne details chat w st).st.chatPageTokens k
      = lookupKey st.chatPageTokens k := by
  have hwk : ¬w = k := fun h => hk h.symm
  rcases hd : details w with _ | d
  · simp [processOne, hd]
  · rcases hl : lookupKey st.activeStreams w with _ | old <;>
      rcases hlive : d.live with _ | li
    · simp [processOne, hd, hl, hlive, lookupKey_insertKey, hwk]
    · rcases hcid : li.chatId with _ | cid
      · simp [processOne, hd, hl, hlive, hcid, lookupKey_insertKey, hwk]
      · constructor
        · simp only [processOne, hd, hl, hlive, hcid]
          rw [monitorChat_activeStreams]
          simp [lookupKey_insertKey, hwk]
        · simp only [processOne, hd, hl, hlive, hcid]
          rw [monitorChat_tokens_ne _ _ _ _ _ hk]
    · simp [processOne, hd, hl, hlive, lookupKey_insertKey, hwk]
    · rcases hcid : li.chatId with _ | cid
      · simp [processOne, hd, hl, hlive, hcid, lookupKey_insertKey, hwk]
      · constructor
        · simp only [processOne, hd, hl, hlive, hcid]
          rw [monitorChat_activeStreams]
          simp [lookupKey_insertKey, hwk]
        · simp only [processOne, hd, hl, hlive, hcid]
          rw [monitorChat_tokens_ne _ _ _ _ _ hk]

theorem processOne_nodup (details : String → Option VideoDetails)
    (chat : String → Option String → Option ChatPage)
    (w : String) (st : MonitorState)
    (h1 : (keysOf st.activeStreams).Nodup)
    (h2 : (keysOf st.chatPageTokens).Nodup) :
    (keysOf (processOne details chat w st).st.activeStreams).Nodup ∧
    (keysOf (processOne details chat w st).st.chatPageTokens).Nodup := by
  rcases hd : details w with _ | d
  · simpa [processOne, hd] using ⟨h1, h2⟩
  · rcases hl : lookupKey st.activeStreams w with _ | old <;>
      rcases hlive : d.live with _ | li
    · simpa [processOne, hd, hl, hlive] using
        ⟨nodupKeys_insertKey _ _ _ h1, h2⟩
    · rcases hcid : li.chatId with _ | cid
      · simpa [processOne, hd, hl, hlive, hcid] using
          ⟨nodupKeys_insertKey _ _ _ h1, h2⟩
      · constructor
        · simp only [processOne, hd, hl, hlive, hcid]
          rw [monitorChat_activeStreams]
          exact nodupKeys_insertKey _ _ _ h1
        · simp only [processOne, hd, hl, hlive, hcid]
          exact monitorChat_tokens_nodup _ _ _ _ h2
    · simpa [processOne, hd, hl, hlive] using
        ⟨nodupKeys_insertKey _ _ _ h1, h2⟩
    · rcases hcid : li.chatId with _ | cid
      · simpa [processOne, hd, hl, hlive, hcid] using
          ⟨nodupKeys_insertKey _ _ _ h1, h2⟩
      · constructor
        · simp only [processOne, hd, hl, hlive, hcid]
          rw [monitorChat_activeStreams]
          exact nodupKeys_insertKey _ _ _ h1
        · simp only [processOne, hd, hl, hlive, hcid]
          exact monitorChat_tokens_nodup _ _ _ _ h2

/-- When the fetched details are `None` the loop body is a pure skip. -/
theorem processOne_detailsNone (details : String → Option VideoDetails)
    (chat : String → Option String → Option ChatPage)
    (w : String) (st : MonitorState) (hd : details w = none) :
    processOne details chat w st = ⟨[], st, false⟩ := by
  simp [processOne, hd]

/-! ### Facts about the full-check loop -/

theorem processBroadcasts_lookup_ne (details : String → Option VideoDetails)
    (chat : String → Option String → Option ChatPage)
    (bs : List String) (st : MonitorState) (k : String) (hk : k ∉ bs) :
    lookupKey (processBroadcasts details chat bs st).st.activeStreams k
      = lookupKey st.activeStreams k ∧
    lookupKey (processBroadcasts details chat bs st).st.chatPageTokens k
      = lookupKey st.chatPageTokens k := by
  induction bs generalizing st with
  | nil => simp [processBroadcasts]
  | cons b rest ih =>
      have hkb : k ≠ b := fun h => hk (by simp [h])
      have hkr : k ∉ rest := fun h => hk (by simp [h])
      have h1 := processOne_lookup_ne details chat b st k hkb
      simp only [processBroadcasts]
      by_cases hc : (processOne details chat b st).crashed
      · simpa [hc] using h1
      · have h2 := ih (processOne details chat b st).st hkr
        simp only [hc, if_false, Bool.false_eq_true]
        exact ⟨h2.1.trans h1.1, h2.2.trans h1.2⟩

theorem processBroadcasts_nodup (details : String → Option VideoDetails)
    (chat : String → Option String → Option ChatPage)
    (bs : List String) (st : MonitorState)
    (h1 : (keysOf st.activeStreams).Nodup)
    (h2 : (keysOf st.chatPageTokens).Nodup) :
    (keysOf (processBroadcasts details chat bs st).st.activeStreams).Nodup ∧
    (keysOf (processBroadcasts details chat bs st).st.chatPageTokens).Nodup := by
  induction bs generalizing st with
  | nil => exact ⟨h1, h2⟩
  | cons b rest ih =>
      have hstep := processOne_nodup details chat b st h1 h2
      simp only [processBroadcasts]
      by_cases hc : (processOne details chat b st).crashed
      · simpa [hc] using hstep
      · have h3 := ih (processOne details chat b st).st hstep.1 hstep.2
        simpa [hc] using h3

theorem processBroadcasts_events (details : String → Option VideoDetails)
    (chat : String → Option String → Option ChatPage)
    (bs : List String) (st : MonitorState) :
    ∀ e ∈ (processBroadcasts details chat bs st).events,
      Event.videoId e ∈ bs ∧ Event.isEnded e = false := by
  induction bs generalizing st with
  | nil => intro e he; simp [processBroadcasts] at he
  | cons b rest ih =>
      intro e he
      simp only [processBroadcasts] at he
      by_cases hc : (processOne details chat b st).crashed
      · rw [if_pos hc] at he
        have := processOne_events details chat b st e he
        exact ⟨by simp [this.1], this.2⟩
      · simp only [hc, if_false, Bool.false_eq_true] at he
        rcases List.mem_append.mp he with he | he
        · have := processOne_events details chat b st e he
          exact ⟨by simp [this.1], this.2⟩
        · have := ih (processOne details chat b st).st e he
          exact ⟨by simp [this.1], this.2⟩

/-! ### Facts about the ended-streams sweep -/

theorem endedSweep_lookup_notMem (ids : List String) (st : MonitorState)
    (v : String) (hv : v ∉ ids) :
    lookupKey (endedSweep ids st).activeStreams v
      = lookupKey st.activeStreams v ∧
    lookupKey (endedSweep ids st).chatPageTokens v
      = lookupKey st.chatPageTokens v := by
  induction ids generalizing st with
  | nil => exact ⟨rfl, rfl⟩
  | cons i rest ih =>
      have hvi : i ≠ v := fun h => hv (by simp [h])
      have hvr : v ∉ rest := fun h => hv (by simp [h])
      simp only [endedSweep]
      have h2 := ih ⟨eraseKey st.activeStreams i, eraseKey st.chatPageTokens i⟩ hvr
      exact ⟨h2.1.trans (lookupKey_eraseKey_ne _ _ _ hvi),
        h2.2.trans (lookupKey_eraseKey_ne _ _ _ hvi)⟩

theorem endedSweep_lookup_none_mono (ids : List String) (st : MonitorState)
    (v : String)
    (h1 : lookupKey st.activeStreams v = none)
    (h2 : lookupKey st.chatPageTokens v = none) :
    lookupKey (endedSweep ids st).activeStreams v = none ∧
    lookupKey (endedSweep ids st).chatPageTokens v = none := by
  induction ids generalizing st with
  | nil => exact ⟨h1, h2⟩
  | cons i rest ih =>
      simp only [endedSweep]
      refine ih _ ?_ ?_
      · exact lookupKey_eq_none _ _ fun hm =>
          (lookupKey_none_iff _ _).mp h1
            ((keysOf_eraseKey_sublist st.activeStreams i).mem hm)
      · exact lookupKey_eq_none _ _ fun hm =>
          (lookupKey_none_iff _ _).mp h2
            ((keysOf_eraseKey_sublist st.chatPageTokens i).mem hm)

theorem endedSweep_lookup_none (ids : List String) (st : MonitorState)
    (v : String)
    (ha : (keysOf st.activeStreams).Nodup)
    (ht : (keysOf st.chatPageTokens).Nodup)
    (hv : v ∈ ids) :
    lookupKey (endedSweep ids st).activeStreams v = none ∧
    lookupKey (endedSweep ids st).chatPageTokens v = none := by
  induction ids generalizing st with
  | nil => simp at hv
  | cons i rest ih =>
      simp only [endedSweep]
      by_cases hvi : v = i
      · subst hvi
        exact endedSweep_lookup_none_mono rest _ v
          (lookupKey_eraseKey_self _ _ ha) (lookupKey_eraseKey_self _ _ ht)
      · have hvr : v ∈ rest := by
          rcases List.mem_cons.mp hv with h | h
          · exact absurd h hvi
          · exact h
        exact ih _ (nodupKeys_eraseKey _ _ ha) (nodupKeys_eraseKey _ _ ht) hvr

/-- With no crash, `fullCheck` is the processing result followed by the
ended sweep. -/
theorem fullCheck_eq_of_not_crashed (details : String → Option VideoDetails)
    (chat : String → Option String → Option ChatPage)
    (bs : List String) (st : MonitorState)
    (h : (processBroadcasts details chat bs st).crashed = false) :
    fullCheck details chat bs st
      = ⟨(processBroadcasts details chat bs st).events ++
          (((keysOf (processBroadcasts details chat bs st).st.activeStreams).filter
            (fun k => decide (k ∉ bs))).map Event.ended),
         endedSweep
           ((keysOf (processBroadcasts details chat bs st).st.activeStreams).filter
             (fun k => decide (k ∉ bs)))
           (processBroadcasts details chat bs st).st,
         false⟩ := by
  unfold fullCheck
  rw [if_neg (by simp [h])]

theorem processBroadcasts_crashed_of_fullCheck (details : String → Option VideoDetails)
    (chat : String → Option String → Option ChatPage)
    (bs : List String) (st : MonitorState)
    (h : (fullCheck details chat bs st).crashed = false) :
    (processBroadcasts details chat bs st).crashed = false := by
  by_cases hc : (processBroadcasts details chat bs st).crashed = true
  · unfold fullCheck at h
    rw [if_pos hc] at h
    exact h
  · simpa using hc

/-- Sweeping exactly the key list of the active map empties it. -/
theorem endedSweep_keysOf_self (l : List (String × VideoDetails))
    (t : List (String × String)) :
    (endedSweep (keysOf l) ⟨l, t⟩).activeStreams = [] := by
  induction l generalizing t with
  | nil => rfl
  | cons a rest ih =>
      obtain ⟨k, d⟩ := a
      simp only [keysOf, List.map_cons, endedSweep, eraseKey, if_pos rfl]
      exact ih (eraseKey t k)

/-- Locality of the loop under a `None` details response for `v`: the
entries of `v` are untouched even though `v` is listed. -/
theorem processBroadcasts_detailsNone_lookup (details : String → Option VideoDetails)
    (chat : String → Option String → Option ChatPage)
    (bs : List String) (st : MonitorState) (v : String)
    (hd : details v = none) :
    lookupKey (processBroadcasts details chat bs st).st.activeStreams v
      = lookupKey st.activeStreams v ∧
    lookupKey (processBroadcasts details chat bs st).st.chatPageTokens v
      = lookupKey st.chatPageTokens v := by
  induction bs generalizing st with
  | nil => exact ⟨rfl, rfl⟩
  | cons b rest ih =>
      simp only [processBroadcasts]
      by_cases hbv : b = v
      · subst hbv
        rw [processOne_detailsNone details chat b st hd]
        simpa [RunResult.crashed] using ih st
      · have h1 := processOne_lookup_ne details chat b st v fun h => hbv h.symm
        by_cases hc : (processOne details chat b st).crashed
        · simpa [hc] using h1
        · have h2 := ih (processOne details chat b st).st
          simp only [hc, if_false, Bool.false_eq_true]
          exact ⟨h2.1.trans h1.1, h2.2.trans h1.2⟩

/-- Under a `None` details response for `v`, no event of the loop is
tagged with `v`. -/
theorem processBroadcasts_detailsNone_events (details : String → Option VideoDetails)
    (chat : String → Option String → Option ChatPage)
    (bs : List String) (st : MonitorState) (v : String)
    (hd : details v = none) :
    ∀ e ∈ (processBroadcasts details chat bs st).events,
      Event.videoId e ≠ v := by
  induction bs generalizing st with
  | nil => intro e he; simp [processBroadcasts] at he
  | cons b rest ih =>
      intro e he
      simp only [processBroadcasts] at he
      by_cases hbv : b = v
      · subst hbv
        rw [processOne_detailsNone details chat b st hd] at he
        simp only [RunResult.crashed, if_neg] at he
        simp only [RunResult.events, List.nil_append] at he
        exact ih st e (by simpa using he)
      · by_cases hc : (processOne details chat b st).crashed
        · rw [if_pos hc] at he
          have := processOne_events details chat b st e he
          rw [this.1]; exact hbv
        · simp only [hc, if_false, Bool.false_eq_true] at he
          rcases List.mem_append.mp he with he | he
          · have := processOne_events details chat b st e he
            rw [this.1]; exact hbv
          · exact ih (processOne details chat b st).st e he

/-! ### Claim theorems -/

/-- Claim C1, counterexample.  With one tracked stream `"v1"`, a
transport-level failure of the broadcast-list call (which
`get_live_broadcasts` swallows into the empty list) makes the full check
emit a `youtube.live.ended` event for `"v1"` and evict it - the claim
said a failed call causes no eviction and no ended event. -/
theorem claim_C1_counterexample :
    Event.ended "v1" ∈ (fullCheck detailsNone chatNone
      (getLiveBroadcasts 0 .transportError ⟨false, 0, 0⟩).1
      ⟨[("v1", sampleLive 5)], [("v1", "tok")]⟩).events ∧
    lookupKey (fullCheck detailsNone chatNone
      (getLiveBroadcasts 0 .transportError ⟨false, 0, 0⟩).1
      ⟨[("v1", sampleLive 5)], [("v1", "tok")]⟩).st.activeStreams "v1" = none := by
  have h : (fullCheck detailsNone chatNone
      (getLiveBroadcasts 0 .transportError ⟨false, 0, 0⟩).1
      ⟨[("v1", sampleLive 5)], [("v1", "tok")]⟩).events = [Event.ended "v1"] := rfl
  exact ⟨h ▸ List.mem_singleton.mpr rfl, rfl⟩

/-- Claim C1 (amended): a transport-level failure of the broadcast-list
call returns the empty list with the quota state unchanged, and the full
check then treats it exactly like a successful empty response: every
previously-active identifier receives one ended event (in insertion
order) and the active set is emptied.  The code does not distinguish a
failed call from an empty list, so a transient failure does produce
"ended" events. -/
theorem claim_C1 (today : Nat) (q : QuotaState)
    (details : String → Option VideoDetails)
    (chat : String → Option String → Option ChatPage) (st : MonitorState) :
    getLiveBroadcasts today .transportError q = ([], q) ∧
    (fullCheck details chat (getLiveBroadcasts today .transportError q).1 st).events
      = (keysOf st.activeStreams).map Event.ended ∧
    (fullCheck details chat
      (getLiveBroadcasts today .transportError q).1 st).st.activeStreams = [] := by
  have hg : getLiveBroadcasts today .transportError q = ([], q) := by
    unfold getLiveBroadcasts
    by_cases hq : q.quotaExceeded = true <;> simp [hq]
  obtain ⟨active, tokens⟩ := st
  have h0 : processBroadcasts details chat [] ⟨active, tokens⟩
      = ⟨[], ⟨active, tokens⟩, false⟩ := rfl
  have heq := fullCheck_eq_of_not_crashed details chat [] ⟨active, tokens⟩
    (by rw [h0])
  have hfilter : (keysOf active).filter
      (fun k => decide (k ∉ ([] : List String))) = keysOf active := by
    simp
  refine ⟨hg, ?_, ?_⟩ <;> rw [hg] <;>
    rw [show (([], q) : List String × QuotaState).1 = [] from rfl]
  · rw [heq, h0]
    simp only [RunResult.events, RunResult.st, List.nil_append]
    rw [hfilter]
  · rw [heq, h0]
    simp only [RunResult.events, RunResult.st, List.nil_append]
    rw [hfilter]
    exact endedSweep_keysOf_self active tokens

/-- Claim C4: an operation attempted while the tracker is already in the
exceeded state is refused with the empty result and the quota state
(including the cumulative total) is untouched; and `_record_api_call` on a
new UTC date zeroes the counter before charging, leaving the cumulative
total equal to exactly the cost of that operation. -/
theorem claim_C4 (today : Nat) (resp : ApiResponse) (q q' : QuotaState)
    (operation : String)
    (hq : q.quotaExceeded = true) (hd : today ≠ q'.quotaResetDate) :
    getLiveBroadcasts today resp q = ([], q) ∧
    (recordApiCall operation today q').quotaUsedToday = quotaCosts operation := by
  constructor
  · unfold getLiveBroadcasts
    rw [if_pos hq]
  · unfold recordApiCall
    rw [if_pos hd]
    simp

/-- Claim C4 witness at concrete inputs. -/
theorem claim_C4_witness :
    getLiveBroadcasts 5 (.ok ["x"]) ⟨true, 7, 4⟩ = ([], ⟨true, 7, 4⟩) ∧
    (recordApiCall "search" 5 ⟨false, 7, 4⟩).quotaUsedToday = 100 := by
  have h := claim_C4 5 (.ok ["x"]) ⟨true, 7, 4⟩ ⟨false, 7, 4⟩ "search" rfl
    (by decide)
  exact ⟨h.1, h.2.trans rfl⟩

/-- Claim C8: the hub's verification request carries the `hub.challenge`
query parameter.  The handler in `src/server/server.py` only recognizes
the misspelled `hub_challenge` key, so the real handshake request is
answered 404 with a `Not Found` body instead of echoing the token; the
copy in `tubular/contrib/tubular/tubular.py` echoes it with status 200 as
the claim requires. -/
theorem claim_C8 :
    doGET_src "/?hub.challenge=challengetoken123&hub.mode=subscribe"
        [("hub.challenge", "challengetoken123"), ("hub.mode", "subscribe")]
      = ⟨404, "Not Found: /?hub.challenge=challengetoken123&hub.mode=subscribe"⟩ ∧
    doGET_contrib [("hub.challenge", "challengetoken123"), ("hub.mode", "subscribe")]
      = ⟨200, "challengetoken123"⟩ := by
  exact ⟨rfl, rfl⟩

/-- Claim C10: an identifier listed by the broadcast response whose
details fetch returns `None` is skipped by `continue`: no event of that
cycle carries it, its active-set entry and chat cursor are unchanged, and
- because it entered `current_stream_ids` before the details fetch - it is
not treated as ended. -/
theorem claim_C10 (details : String → Option VideoDetails)
    (chat : String → Option String → Option ChatPage)
    (bs : List String) (st : MonitorState) (v : String)
    (hv : v ∈ bs) (hd : details v = none) :
    (∀ e ∈ (fullCheck details chat bs st).events, Event.videoId e ≠ v) ∧
    lookupKey (fullCheck details chat bs st).st.activeStreams v
      = lookupKey st.activeStreams v ∧
    lookupKey (fullCheck details chat bs st).st.chatPageTokens v
      = lookupKey st.chatPageTokens v := by
  by_cases hc : (processBroadcasts details chat bs st).crashed
  · have hfc : fullCheck details chat bs st = processBroadcasts details chat bs st := by
      unfold fullCheck
      rw [if_pos hc]
    rw [hfc]
    exact ⟨processBroadcasts_detailsNone_events details chat bs st v hd,
      processBroadcasts_detailsNone_lookup details chat bs st v hd⟩
  · have hc' : (processBroadcasts details chat bs st).crashed = false := by
      simpa using hc
    rw [fullCheck_eq_of_not_crashed details chat bs st hc']
    have hstate := processBroadcasts_detailsNone_lookup details chat bs st v hd
    have hvnotin : v ∉ (keysOf (processBroadcasts details chat bs st).st.activeStreams).filter
        (fun k => decide (k ∉ bs)) := by
      intro hmem
      have := (List.mem_filter.mp hmem).2
      exact (of_decide_eq_true this) hv
    refine ⟨?_, ?_, ?_⟩
    · intro e he
      rcases List.mem_append.mp he with he | he
      · exact processBroadcasts_detailsNone_events details chat bs st v hd e he
      · simp only [List.mem_map] at he
        obtain ⟨id, hid, hide⟩ := he
        rw [← hide]
        have : id ∉ bs := of_decide_eq_true (List.mem_filter.mp hid).2
        simp only [Event.videoId]
        exact fun h => this (h ▸ hv)
    · exact ((endedSweep_lookup_notMem _ _ v hvnotin).1).trans hstate.1
    · exact ((endedSweep_lookup_notMem _ _ v hvnotin).2).trans hstate.2

/-! ### Facts about the lightweight-refresh loop -/

theorem lightweightStep_events (details : String → Option VideoDetails)
    (w : String) (st : MonitorState) :
    ∀ e ∈ (lightweightStep details w st).events,
      Event.videoId e = w ∧ Event.isEnded e = false := by
  intro e he
  rcases hd : details w with _ | d
  · simp [lightweightStep, hd] at he
  · rcases hlive : d.live with _ | li
    · simp [lightweightStep, hd, hlive] at he
    · rcases hl : lookupKey st.activeStreams w with _ | old
      · simp [lightweightStep, hd, hlive, hl] at he
      · rcases hold : old.live with _ | oldLi
        · simp [lightweightStep, hd, hlive, hl, hold] at he
        · simp only [lightweightStep, hd, hlive, hl, hold] at he
          split at he
          · simp only [List.mem_singleton] at he
            simp [he, Event.videoId, Event.isEnded]
          · simp at he

theorem lightweightStep_tokens (details : String → Option VideoDetails)
    (w : String) (st : MonitorState) :
    (lightweightStep details w st).st.chatPageTokens = st.chatPageTokens := by
  rcases hd : details w with _ | d
  · simp [lightweightStep, hd]
  · rcases hlive : d.live with _ | li
    · simp [lightweightStep, hd, hlive]
    · rcases hl : lookupKey st.activeStreams w with _ | old
      · simp [lightweightStep, hd, hlive, hl]
      · rcases hold : old.live with _ | oldLi <;>
          simp [lightweightStep, hd, hlive, hl, hold]

theorem lightweightStep_keys (details : String → Option VideoDetails)
    (w : String) (st : MonitorState) :
    keysOf (lightweightStep details w st).st.activeStreams
      = keysOf st.activeStreams := by
  rcases hd : details w with _ | d
  · simp [lightweightStep, hd]
  · rcases hlive : d.live with _ | li
    · simp [lightweightStep, hd, hlive]
    · rcases hl : lookupKey st.activeStreams w with _ | old
      · simp [lightweightStep, hd, hlive, hl]
      · rcases hold : old.live with _ | oldLi
        · simp [lightweightStep, hd, hlive, hl, hold]
        · simp only [lightweightStep, hd, hlive, hl, hold]
          exact keysOf_insertKey_mem _ _ _
            ((lookupKey_isSome _ _).mp (by rw [hl]; rfl))

theorem lightweightStep_lookup_ne (details : String → Option VideoDetails)
    (w : String) (st : MonitorState) (k : String) (hk : k ≠ w) :
    lookupKey (lightweightStep details w st).st.activeStreams k
      = lookupKey st.activeStreams k := by
  have hwk : ¬w = k := fun h => hk h.symm
  rcases hd : details w with _ | d
  · simp [lightweightStep, hd]
  · rcases hlive : d.live with _ | li
    · simp [lightweightStep, hd, hlive]
    · rcases hl : lookupKey st.activeStreams w with _ | old
      · simp [lightweightStep, hd, hlive, hl]
      · rcases hold : old.live with _ | oldLi
        · simp [lightweightStep, hd, hlive, hl, hold]
        · simp [lightweightStep, hd, hlive, hl, hold, lookupKey_insertKey, hwk]

/-- A `None` details response makes the loop body a pure skip. -/
theorem lightweightStep_detailsNone (details : String → Option VideoDetails)
    (w : String) (st : MonitorState) (hd : details w = none) :
    lightweightStep details w st = ⟨[], st, false⟩ := by
  simp [lightweightStep, hd]

theorem lightweightGo_events (details : String → Option VideoDetails)
    (ids : List String) (st : MonitorState) :
    ∀ e ∈ (lightweightGo details ids st).events, Event.isEnded e = false := by
  induction ids generalizing st with
  | nil => intro e he; simp [lightweightGo] at he
  | cons i rest ih =>
      intro e he
      simp only [lightweightGo] at he
      by_cases hc : (lightweightStep details i st).crashed
      · rw [if_pos hc] at he
        exact (lightweightStep_events details i st e he).2
      · simp only [hc, if_false, Bool.false_eq_true] at he
        rcases List.mem_append.mp he with he | he
        · exact (lightweightStep_events details i st e he).2
        · exact ih (lightweightStep details i st).st e he

theorem lightweightGo_keys (details : String → Option VideoDetails)
    (ids : List String) (st : MonitorState) :
    keysOf (lightweightGo details ids st).st.activeStreams
      = keysOf st.activeStreams := by
  induction ids generalizing st with
  | nil => rfl
  | cons i rest ih =>
      simp only [lightweightGo]
      by_cases hc : (lightweightStep details i st).crashed
      · rw [if_pos hc]
        exact lightweightStep_keys details i st
      · simp only [hc, if_false, Bool.false_eq_true]
        exact (ih (lightweightStep details i st).st).trans
          (lightweightStep_keys details i st)

theorem lightweightGo_detailsNone_lookup (details : String → Option VideoDetails)
    (ids : List String) (st : MonitorState) (v : String)
    (hd : details v = none) :
    lookupKey (lightweightGo details ids st).st.activeStreams v
      = lookupKey st.activeStreams v := by
  induction ids generalizing st with
  | nil => rfl
  | cons i rest ih =>
      simp only [lightweightGo]
      by_cases hiv : i = v
      · subst hiv
        rw [lightweightStep_detailsNone details i st hd]
        simpa [RunResult.crashed] using ih st
      · by_cases hc : (lightweightStep details i st).crashed
        · rw [if_pos hc]
          exact lightweightStep_lookup_ne details i st v fun h => hiv h.symm
        · simp only [hc, if_false, Bool.false_eq_true]
          exact (ih (lightweightStep details i st).st).trans
            (lightweightStep_lookup_ne details i st v fun h => hiv h.symm)

/-- Claim C2, counterexample.  `"A"` is tracked, the next full-check
response lists only the new identifier `"B"`, and `"B"`'s details carry no
`liveStreamingDetails` key: building the started-event payload raises
`KeyError` (line 360), the cycle aborts, and `"A"` - absent from the
response - gets no ended event and stays in the active set, against the
claimed exactly-one-ended-event reconciliation. -/
theorem claim_C2_counterexample :
    (fullCheck (fun w => if w = "B" then some sampleNoLive else none) chatNone
      ["B"] ⟨[("A", sampleLive 5)], []⟩).events.count (Event.ended "A") = 0 ∧
    lookupKey (fullCheck (fun w => if w = "B" then some sampleNoLive else none)
      chatNone ["B"] ⟨[("A", sampleLive 5)], []⟩).st.activeStreams "A"
      = some (sampleLive 5) ∧
    (fullCheck (fun w => if w = "B" then some sampleNoLive else none) chatNone
      ["B"] ⟨[("A", sampleLive 5)], []⟩).crashed = true :=
  ⟨rfl, rfl, rfl⟩

/-- Claim C2 (amended): whenever the processing of the next full-check
response completes without an exception (no listed identifier's details
lack `liveStreamingDetails`), a tracked identifier absent from the
response gets exactly one `youtube.live.ended` event and is removed from
the active set together with its chat cursor. -/
theorem claim_C2 (details : String → Option VideoDetails)
    (chat : String → Option String → Option ChatPage)
    (bs : List String) (st : MonitorState) (v : String)
    (ha : (keysOf st.activeStreams).Nodup)
    (ht : (keysOf st.chatPageTokens).Nodup)
    (hv : v ∈ keysOf st.activeStreams)
    (hb : v ∉ bs)
    (hcr : (fullCheck details chat bs st).crashed = false) :
    (fullCheck details chat bs st).events.count (Event.ended v) = 1 ∧
    lookupKey (fullCheck details chat bs st).st.activeStreams v = none ∧
    lookupKey (fullCheck details chat bs st).st.chatPageTokens v = none := by
  have hpc := processBroadcasts_crashed_of_fullCheck details chat bs st hcr
  rw [fullCheck_eq_of_not_crashed details chat bs st hpc]
  have hlook := (processBroadcasts_lookup_ne details chat bs st v hb).1
  have hvp : v ∈ keysOf (processBroadcasts details chat bs st).st.activeStreams := by
    rw [← lookupKey_isSome, hlook]
    exact (lookupKey_isSome _ _).mpr hv
  have hnodup := processBroadcasts_nodup details chat bs st ha ht
  have hvids : v ∈ (keysOf (processBroadcasts details chat bs st).st.activeStreams).filter
      (fun k => decide (k ∉ bs)) :=
    List.mem_filter.mpr ⟨hvp, decide_eq_true hb⟩
  refine ⟨?_, ?_, ?_⟩
  · show ((processBroadcasts details chat bs st).events ++ _).count _ = 1
    rw [List.count_append]
    have hzero : (processBroadcasts details chat bs st).events.count
        (Event.ended v) = 0 := by
      rw [List.count_eq_zero]
      intro hmem
      have := (processBroadcasts_events details chat bs st (Event.ended v) hmem).2
      simp [Event.isEnded] at this
    rw [hzero]
    have hinj : Function.Injective Event.ended := fun x y h => by
      simpa using h
    rw [List.count_map_of_injective _ _ hinj]
    rw [List.count_eq_one_of_mem ((hnodup.1).filter _) hvids]
  · exact (endedSweep_lookup_none _ _ v hnodup.1 hnodup.2 hvids).1
  · exact (endedSweep_lookup_none _ _ v hnodup.1 hnodup.2 hvids).2

/-- Claim C2 witness at concrete inputs. -/
theorem claim_C2_witness :
    (fullCheck (fun _ => some (sampleLive 7)) chatNone ["B"]
      ⟨[("A", sampleLive 5)], [("A", "tok")]⟩).events.count (Event.ended "A") = 1 ∧
    lookupKey (fullCheck (fun _ => some (sampleLive 7)) chatNone ["B"]
      ⟨[("A", sampleLive 5)], [("A", "tok")]⟩).st.activeStreams "A" = none ∧
    lookupKey (fullCheck (fun _ => some (sampleLive 7)) chatNone ["B"]
      ⟨[("A", sampleLive 5)], [("A", "tok")]⟩).st.chatPageTokens "A" = none := by
  exact claim_C2 (fun _ => some (sampleLive 7)) chatNone ["B"]
    ⟨[("A", sampleLive 5)], [("A", "tok")]⟩ "A"
    (by simp [keysOf]) (by simp [keysOf])
    (by simp [keysOf]) (by simp) rfl

/-- Claim C3, counterexample.  On the full-check path with a tracked
stream going from 10000 to 10101 concurrent viewers, the relative change
is 1.01% - not above the claimed 10% threshold - yet a
`youtube.live.viewers_updated` event is emitted, because the code also
fires on an absolute change of more than 100 viewers. -/
theorem claim_C3_counterexample :
    (fullCheck (fun _ => some (sampleLive 10101)) chatNone ["v"]
      ⟨[("v", sampleLive 10000)], []⟩).events
      = [Event.viewersUpdated "v" 10101] ∧
    10 * absDiff 10101 10000 ≤ 10000 :=
  ⟨rfl, by decide⟩

/-- Claim C3 (amended): for one tracked stream whose stored count is `a`
and whose fresh details report `b`, the full-check path emits a
viewers-updated event exactly when both counts are nonzero and either the
absolute change exceeds 100 viewers or the relative change exceeds 10%,
while the lightweight path emits it exactly when the old count is
positive and the relative change exceeds 10%. -/
theorem claim_C3 (v t c : String) (a b : Nat) :
    (fullCheck (fun _ => some ⟨t, c, some ⟨b, none⟩⟩) chatNone [v]
        ⟨[(v, ⟨t, c, some ⟨a, none⟩⟩)], []⟩).events
      = (if a ≠ 0 ∧ b ≠ 0 ∧ (100 < absDiff b a ∨ a < 10 * absDiff b a)
         then [Event.viewersUpdated v b] else []) ∧
    (lightweightRefresh (fun _ => some ⟨t, c, some ⟨b, none⟩⟩)
        ⟨[(v, ⟨t, c, some ⟨a, none⟩⟩)], []⟩).events
      = (if 0 < a ∧ a < 10 * absDiff b a
         then [Event.viewersUpdated v b] else []) := by
  constructor
  · simp only [fullCheck, processBroadcasts, processOne, lookupKey, if_pos rfl,
      getViewers, insertKey, keysOf, chatNone, endedSweep]
    simp [keysOf, insertKey]
  · simp only [lightweightRefresh, keysOf, List.map_cons, List.map_nil,
      lightweightGo, lightweightStep, lookupKey, if_pos rfl]
    simp [insertKey]

/-- Claim C7, counterexample.  A previously-active stream whose
lightweight-path details fetch returns `None` is only logged: no
`youtube.live.ended` event is emitted and the identifier stays in the
active set, against the claimed ended-lifecycle handling. -/
theorem claim_C7_counterexample :
    (lightweightRefresh detailsNone ⟨[("v1", sampleLive 5)], []⟩).events = [] ∧
    lookupKey (lightweightRefresh detailsNone
      ⟨[("v1", sampleLive 5)], []⟩).st.activeStreams "v1" = some (sampleLive 5) :=
  ⟨rfl, rfl⟩

/-- Claim C7 (amended): the lightweight path treats a `None` (or
live-details-missing) response as a log-only condition: it never emits an
ended event, never removes any identifier from the active set (the key
set is preserved exactly), and leaves the entry of an identifier whose
details fetch returned `None` untouched; the ended lifecycle is deferred
to a later full check. -/
theorem claim_C7 (details : String → Option VideoDetails) (st : MonitorState) :
    (∀ e ∈ (lightweightRefresh details st).events, Event.isEnded e = false) ∧
    keysOf (lightweightRefresh details st).st.activeStreams
      = keysOf st.activeStreams ∧
    (∀ v, details v = none →
      lookupKey (lightweightRefresh details st).st.activeStreams v
        = lookupKey st.activeStreams v) := by
  refine ⟨lightweightGo_events details _ st, lightweightGo_keys details _ st, ?_⟩
  intro v hv
  exact lightweightGo_detailsNone_lookup details _ st v hv

/-- Claim C7 witness at concrete inputs. -/
theorem claim_C7_witness :
    keysOf (lightweightRefresh detailsNone
      ⟨[("v2", sampleLive 9)], []⟩).st.activeStreams = ["v2"] ∧
    lookupKey (lightweightRefresh detailsNone
      ⟨[("v2", sampleLive 9)], []⟩).st.activeStreams "v2" = some (sampleLive 9) := by
  have h := claim_C7 detailsNone ⟨[("v2", sampleLive 9)], []⟩
  exact ⟨(h.2.1).trans rfl, (h.2.2 "v2" rfl).trans rfl⟩

/-- Claim C10 witness at concrete inputs. -/
theorem claim_C10_witness :
    (∀ e ∈ (fullCheck detailsNone chatNone ["v1"]
        ⟨[("v1", sampleLive 5)], [("v1", "tok")]⟩).events,
      Event.videoId e ≠ "v1") ∧
    lookupKey (fullCheck detailsNone chatNone ["v1"]
        ⟨[("v1", sampleLive 5)], [("v1", "tok")]⟩).st.activeStreams "v1"
      = some (sampleLive 5) ∧
    lookupKey (fullCheck detailsNone chatNone ["v1"]
        ⟨[("v1", sampleLive 5)], [("v1", "tok")]⟩).st.chatPageTokens "v1"
      = some "tok" := by
  have h := claim_C10 detailsNone chatNone ["v1"]
    ⟨[("v1", sampleLive 5)], [("v1", "tok")]⟩ "v1"
    (List.mem_singleton.mpr rfl) rfl
  exact ⟨h.1, h.2.1.trans rfl, h.2.2.trans rfl⟩

/-! ### Facts about `forward_event` and the pending ring -/

theorem forwardEventFrom_unfold (outcomes : Nat → Bool) (et p : String)
    (now : Nat) (ring : List Entry) (rc : Nat) :
    forwardEventFrom outcomes et p now ring rc
      = if outcomes rc then (true, ring)
        else if rc < 3 then forwardEventFrom outcomes et p now ring (rc + 1)
        else (false, ringPush ring ⟨et, p, now⟩) := by
  rw [forwardEventFrom]

theorem forwardEvent_all_fail (outcomes : Nat → Bool) (et p : String)
    (now : Nat) (ring : List Entry)
    (h : ∀ k, k ≤ 3 → outcomes k = false) :
    forwardEvent outcomes et p now ring
      = (false, ringPush ring ⟨et, p, now⟩) := by
  unfold forwardEvent
  rw [forwardEventFrom_unfold, h 0 (by omega), if_neg Bool.false_ne_true,
    if_pos (show 0 < 3 by omega)]
  rw [forwardEventFrom_unfold, h 1 (by omega), if_neg Bool.false_ne_true,
    if_pos (show 1 < 3 by omega)]
  rw [forwardEventFrom_unfold, h 2 (by omega), if_neg Bool.false_ne_true,
    if_pos (show 2 < 3 by omega)]
  rw [forwardEventFrom_unfold, h 3 (by omega), if_neg Bool.false_ne_true,
    if_neg (show ¬3 < 3 by omega)]

theorem forwardEvent_succeeds (outcomes : Nat → Bool) (et p : String)
    (now : Nat) (ring : List Entry)
    (h : ∃ k, k ≤ 3 ∧ outcomes k = true) :
    forwardEvent outcomes et p now ring = (true, ring) := by
  unfold forwardEvent
  rw [forwardEventFrom_unfold]
  by_cases h0 : outcomes 0 = true
  · rw [if_pos h0]
  · rw [if_neg h0, if_pos (show 0 < 3 by omega), forwardEventFrom_unfold]
    by_cases h1 : outcomes 1 = true
    · rw [if_pos h1]
    · rw [if_neg h1, if_pos (show 1 < 3 by omega), forwardEventFrom_unfold]
      by_cases h2 : outcomes 2 = true
      · rw [if_pos h2]
      · rw [if_neg h2, if_pos (show 2 < 3 by omega), forwardEventFrom_unfold]
        by_cases h3 : outcomes 3 = true
        · rw [if_pos h3]
        · exfalso
          obtain ⟨k, hk, hko⟩ := h
          interval_cases k <;> simp_all

theorem forwardEvent_cases (outcomes : Nat → Bool) (et p : String)
    (now : Nat) (ring : List Entry) :
    forwardEvent outcomes et p now ring = (true, ring) ∨
    forwardEvent outcomes et p now ring
      = (false, ringPush ring ⟨et, p, now⟩) := by
  by_cases h : ∃ k, k ≤ 3 ∧ outcomes k = true
  · exact Or.inl (forwardEvent_succeeds outcomes et p now ring h)
  · push_neg at h
    exact Or.inr (forwardEvent_all_fail outcomes et p now ring
      (fun k hk => by simpa using h k hk))

theorem mem_ringPush (ring : List Entry) (a x : Entry)
    (h : x ∈ ringPush ring a) : x ∈ ring ∨ x = a := by
  have h' : x ∈ (if 100 < (ring ++ [a]).length
      then List.drop ((ring ++ [a]).length - 100) (ring ++ [a])
      else ring ++ [a]) := h
  by_cases hlen : 100 < (ring ++ [a]).length
  · rw [if_pos hlen] at h'
    have hr := List.drop_subset _ _ h'
    simpa using hr
  · rw [if_neg hlen] at h'
    simpa using h'

theorem retrySweepGo_ring_fresh (outcomes : Entry → Nat → Bool) (now : Nat)
    (l : List Entry) :
    ∀ acc : List Entry, (∀ x ∈ acc, now - x.timestamp ≤ 3600) →
    ∀ x ∈ (retrySweepGo outcomes now l acc).ring, now - x.timestamp ≤ 3600 := by
  induction l with
  | nil => intro acc hacc; simpa [retrySweepGo] using hacc
  | cons e rest ih =>
      intro acc hacc
      simp only [retrySweepGo]
      by_cases hstale : 3600 < now - e.timestamp
      · rw [if_pos hstale]
        exact ih acc hacc
      · rw [if_neg hstale]
        rcases forwardEvent_cases (outcomes e) e.eventType e.payload now acc
          with hf | hf <;> rw [hf] <;> simp only [SweepResult.ring]
        · exact ih acc hacc
        · refine ih _ ?_
          intro x hx
          rcases mem_ringPush _ _ _ hx with hx | hx
          · rcases mem_ringPush _ _ _ hx with hx | hx
            · exact hacc x hx
            · rw [hx]
              show now - now ≤ 3600
              omega
          · rw [hx]
            show now - e.timestamp ≤ 3600
            omega

theorem retrySweepGo_attempted_fresh (outcomes : Entry → Nat → Bool) (now : Nat)
    (l : List Entry) :
    ∀ acc : List Entry,
    ∀ x ∈ (retrySweepGo outcomes now l acc).attempted,
      now - x.timestamp ≤ 3600 := by
  induction l with
  | nil => intro acc x hx; simp [retrySweepGo] at hx
  | cons e rest ih =>
      intro acc x hx
      simp only [retrySweepGo] at hx
      by_cases hstale : 3600 < now - e.timestamp
      · rw [if_pos hstale] at hx
        exact ih acc x hx
      · rw [if_neg hstale] at hx
        rcases forwardEvent_cases (outcomes e) e.eventType e.payload now acc
          with hf | hf <;> rw [hf] at hx <;>
          simp only [SweepResult.attempted, List.mem_cons] at hx <;>
          rcases hx with hx | hx
        · rw [hx]; omega
        · exact ih acc x hx
        · rw [hx]; omega
        · exact ih _ x hx

theorem retrySweepGo_mem_attempted (outcomes : Entry → Nat → Bool) (now : Nat)
    (l : List Entry) :
    ∀ acc : List Entry, ∀ e ∈ l, now - e.timestamp ≤ 3600 →
      e ∈ (retrySweepGo outcomes now l acc).attempted := by
  induction l with
  | nil => intro acc e he; simp at he
  | cons a rest ih =>
      intro acc e he hfresh
      simp only [retrySweepGo]
      rcases List.mem_cons.mp he with he | he
      · subst he
        rw [if_neg (by omega)]
        rcases forwardEvent_cases (outcomes e) e.eventType e.payload now acc
          with hf | hf <;> rw [hf] <;>
          exact List.mem_cons_self _ _
      · by_cases hstale : 3600 < now - a.timestamp
        · rw [if_pos hstale]
          exact ih acc e he hfresh
        · rw [if_neg hstale]
          rcases forwardEvent_cases (outcomes a) a.eventType a.payload now acc
            with hf | hf <;> rw [hf] <;>
            exact List.mem_cons_of_mem _ (ih _ e he hfresh)

theorem retrySweepGo_mem_pushed (outcomes : Entry → Nat → Bool) (now : Nat)
    (l : List Entry) :
    ∀ acc : List Entry, ∀ e ∈ l, now - e.timestamp ≤ 3600 →
      (∀ k, k ≤ 3 → outcomes e k = false) →
      e ∈ (retrySweepGo outcomes now l acc).pushed := by
  induction l with
  | nil => intro acc e he; simp at he
  | cons a rest ih =>
      intro acc e he hfresh hfail
      simp only [retrySweepGo]
      rcases List.mem_cons.mp he with he | he
      · subst he
        rw [if_neg (by omega)]
        rw [forwardEvent_all_fail (outcomes e) e.eventType e.payload now acc hfail]
        simp only [SweepResult.pushed]
        refine List.mem_append.mpr (Or.inl ?_)
        simp
      · by_cases hstale : 3600 < now - a.timestamp
        · rw [if_pos hstale]
          exact ih acc e he hfresh hfail
        · rw [if_neg hstale]
          rcases forwardEvent_cases (outcomes a) a.eventType a.payload now acc
            with hf | hf
          · rw [hf]
            simpa using ih acc e he hfresh hfail
          · rw [hf]
            have hrec := ih (ringPush (ringPush acc ⟨a.eventType, a.payload, now⟩)
              ⟨a.eventType, a.payload, a.timestamp⟩) e he hfresh hfail
            simpa using Or.inr (Or.inr hrec)

/-- Claim C5: a delivery call whose four attempts (one initial plus three
in-place retries) all fail appends exactly one entry for the event to the
pending ring and returns false; a call that succeeds on any of the four
attempts returns true and leaves the ring untouched. -/
theorem claim_C5 (outcomes : Nat → Bool) (eventType payload : String)
    (now : Nat) (ring : List Entry) :
    ((∀ k, k ≤ 3 → outcomes k = false) →
      forwardEvent outcomes eventType payload now ring
        = (false, ringPush ring ⟨eventType, payload, now⟩)) ∧
    ((∃ k, k ≤ 3 ∧ outcomes k = true) →
      forwardEvent outcomes eventType payload now ring = (true, ring)) :=
  ⟨forwardEvent_all_fail outcomes eventType payload now ring,
   forwardEvent_succeeds outcomes eventType payload now ring⟩

/-- Claim C5 witness at concrete inputs. -/
theorem claim_C5_witness :
    forwardEvent (fun _ => false) "youtube.live.started" "pay" 42 []
      = (false, [⟨"youtube.live.started", "pay", 42⟩]) ∧
    forwardEvent (fun _ => true) "youtube.live.started" "pay" 42 []
      = (true, []) := by
  constructor
  · rw [(claim_C5 (fun _ => false) "youtube.live.started" "pay" 42 []).1
      (fun k _ => rfl)]
    rfl
  · exact (claim_C5 (fun _ => true) "youtube.live.started" "pay" 42 []).2
      ⟨0, by omega, rfl⟩

/-- Claim C6: during a `retry_failed_events` sweep, a pending entry more
than one hour old is never given a delivery attempt and is absent from
the ring afterwards; an entry at most one hour old is attempted, and if
its delivery attempts all fail again its original
`(type, payload, timestamp)` triple is re-appended to the ring (subject
only to the ring's capacity bound). -/
theorem claim_C6 (outcomes : Entry → Nat → Bool) (now : Nat)
    (ring : List Entry) (e : Entry) (he : e ∈ ring) :
    (3600 < now - e.timestamp →
      e ∉ (retryFailedEvents outcomes now ring).attempted ∧
      e ∉ (retryFailedEvents outcomes now ring).ring) ∧
    (now - e.timestamp ≤ 3600 →
      e ∈ (retryFailedEvents outcomes now ring).attempted ∧
      ((∀ k, k ≤ 3 → outcomes e k = false) →
        e ∈ (retryFailedEvents outcomes now ring).pushed)) := by
  have hne : ring ≠ [] := fun h => by simp [h] at he
  unfold retryFailedEvents
  rw [if_neg hne]
  constructor
  · intro hstale
    constructor
    · intro hmem
      have := retrySweepGo_attempted_fresh outcomes now ring [] e hmem
      omega
    · intro hmem
      have := retrySweepGo_ring_fresh outcomes now ring []
        (by intro x hx; simp at hx) e hmem
      omega
  · intro hfresh
    exact ⟨retrySweepGo_mem_attempted outcomes now ring [] e he hfresh,
      fun hfail => retrySweepGo_mem_pushed outcomes now ring [] e he hfresh hfail⟩

/-- Claim C6 witness at concrete inputs. -/
theorem claim_C6_witness :
    (⟨"a", "p", 100⟩ : Entry) ∉ (retryFailedEvents (fun _ _ => false) 10000
      [⟨"a", "p", 100⟩, ⟨"b", "q", 9000⟩]).ring ∧
    (⟨"b", "q", 9000⟩ : Entry) ∈ (retryFailedEvents (fun _ _ => false) 10000
      [⟨"a", "p", 100⟩, ⟨"b", "q", 9000⟩]).pushed := by
  constructor
  · exact ((claim_C6 (fun _ _ => false) 10000 _ ⟨"a", "p", 100⟩
      (List.mem_cons_self _ _)).1 (by decide)).2
  · exact ((claim_C6 (fun _ _ => false) 10000 _ ⟨"b", "q", 9000⟩
      (List.mem_cons_of_mem _ (List.mem_cons_self _ _))).2 (by decide)).2
      (fun k _ => rfl)

/-- Claim C9: with a configured secret, the attached `X-Hub-Signature`
header is exactly `sha256=` followed by the lowercase hex digest of the
HMAC-SHA256 of the serialized envelope, and the serialized bytes that are
signed are the very `json.dumps` rendering of the
`(event_type, event, timestamp, source)` envelope that is posted as the
request body. -/
theorem claim_C9 (hmacSha256 : String → String → List Nat) (secret : String)
    (eventType : String) (eventData : JValue) (timestamp : String) :
    lookupKey (buildWebhookRequest hmacSha256 (some secret) eventType eventData
        timestamp).headers "X-Hub-Signature"
      = some ("sha256=" ++
          hexDigest (hmacSha256 secret
            (jdump (envelopeJson eventType eventData timestamp)))) ∧
    (buildWebhookRequest hmacSha256 (some secret) eventType eventData
        timestamp).body = jdump (envelopeJson eventType eventData timestamp) :=
  ⟨rfl, rfl⟩

end Tubular
